import Mathlib

/-!
Shallow embedding of the data pipeline of `app.py`: the zip/CSV loader
`read_csv_from_zip`, the unified-table loader `load_data` (here
`loadUnified`), the transaction deduplicator `build_transactions_table`,
and the module-level date-range filters `df_f` / `df_tx_f`.

Modelling conventions:

* A numeric cell is an `Option ℚ` holding the outcome of
  `pd.to_numeric(cell, errors="coerce")`; `none` stands for `NaN`
  (a missing or unparseable source value).  The text-to-number parsing
  itself is the opaque library step, so its result domain is embedded.
* A date cell is an `Option Nat` holding the outcome of
  `pd.to_datetime(cell, errors="coerce")` as a timestamp in whole seconds
  since 1970-01-01; `none` stands for `NaT`.
* A dataframe is a list of rows; the pandas row index is carried
  explicitly where the code manipulates it (`ignore_index=True`).
* Optional columns (`year`, `month`, `week`) are table-level
  `Option` column vectors, mirroring pandas column presence.
* Fatal paths (`st.stop()` after `st.error`, and raising casts such as
  `astype` on missing values) are `Except.error`; `load_data`'s
  column-by-column statements are embedded row-wise inside one traversal,
  which can change only which of several fatal messages is reported,
  never whether loading fails nor any produced value.
* Aliasing facts of the spec's lifecycle sentence are settled over an
  explicit object heap (`HObj`) whose operations record which pandas
  calls return fresh frames (`df[cols]`, `drop_duplicates`, `.copy()`)
  and which mutate their receiver (column assignment).
-/

/- ### Calendar arithmetic behind `dt.year`, `dt.month`, `dt.isocalendar().week` -/

/-- Weekday with Monday = 0, of a day count since 1970-01-01 (a Thursday). -/
def weekdayMon (d : Nat) : Nat := (d + 3) % 7

/-- Gregorian (year, month, day) of a day count since 1970-01-01
(standard civil-from-days conversion; all inputs here are non-negative). -/
def civilFromDays (days : Nat) : Nat × Nat × Nat :=
  let z := days + 719468
  let era := z / 146097
  let doe := z - era * 146097
  let yoe := (doe - doe / 1460 + doe / 36524 - doe / 146096) / 365
  let y := yoe + era * 400
  let doy := doe - (365 * yoe + yoe / 4 - yoe / 100)
  let mp := (5 * doy + 2) / 153
  let d := doy - (153 * mp + 2) / 5 + 1
  let m := if mp < 10 then mp + 3 else mp - 9
  (if m ≤ 2 then y + 1 else y, m, d)

/-- Day count since 1970-01-01 of a Gregorian date (inverse of
`civilFromDays`; only used at dates at or after 1970-01-01). -/
def daysFromCivil (y m d : Nat) : Nat :=
  let y2 := y - (if m ≤ 2 then 1 else 0)
  let era := y2 / 400
  let yoe := y2 - era * 400
  let mp := if 2 < m then m - 3 else m + 9
  let doy := (153 * mp + 2) / 5 + d - 1
  let doe := yoe * 365 + yoe / 4 - yoe / 100 + doy
  era * 146097 + doe - 719468

/-- `Timestamp.year` of a timestamp in seconds. -/
def yearOfTs (t : Nat) : Nat := (civilFromDays (t / 86400)).1

/-- `Timestamp.month` of a timestamp in seconds. -/
def monthOfTs (t : Nat) : Nat := (civilFromDays (t / 86400)).2.1

/-- ISO-8601 calendar week number of a timestamp in seconds
(`Series.dt.isocalendar().week`): the week of a day is identified by the
Thursday falling in it. -/
def isoWeekOfTs (t : Nat) : Nat :=
  let d := t / 86400
  let thu := d + 3 - weekdayMon d
  (thu - daysFromCivil (civilFromDays thu).1 1 1) / 7 + 1

/- ### Coercions shared by the loader -/

/-- `numpy` `astype(int)` on a finite float: truncation toward zero. -/
def ratTrunc (q : ℚ) : Int := if 0 ≤ q then ⌊q⌋ else ⌈q⌉

/-- `astype("Int64")` on the result of `pd.to_numeric(..., errors="coerce")`:
`NaN` becomes the nullable `<NA>`, an integral value casts through, and a
non-integral value raises (`cannot safely cast`). -/
def int64Cast (o : Option ℚ) : Except String (Option Int) :=
  match o with
  | none => Except.ok none
  | some q =>
    if q.den = 1 then Except.ok (some q.num)
    else Except.error "cannot safely cast non-equivalent float64 to Int64"

/-- Fail-fast effectful map, as a column-level pandas operation behaves:
the first failing cell aborts the whole statement. -/
def mapE (f : α → Except String β) : List α → Except String (List β)
  | [] => Except.ok []
  | a :: l =>
    match f a with
    | Except.error e => Except.error e
    | Except.ok b =>
      match mapE f l with
      | Except.error e => Except.error e
      | Except.ok bs => Except.ok (b :: bs)

/- ### Raw data model (the payload `pd.read_csv` yields from a zip entry) -/

/-- One raw row of a source CSV, with each parseable field already carried
in the result domain of its coercion (see the module docstring). -/
structure RawRow where
  date : Option Nat
  store_nbr : Option ℚ
  family : String
  sales : Option ℚ
  onpromotion : Option ℚ
  state : String
  city : String
  transactions : Option ℚ
deriving DecidableEq

/-- A raw dataframe: rows paired with the row index the source carried,
plus the three optional calendar columns (`none` = column absent). -/
structure RawTable where
  rows : List (Int × RawRow)
  yearCol : Option (List (Option Int))
  monthCol : Option (List (Option Int))
  weekCol : Option (List (Option Int))
deriving DecidableEq

/-- Cell `i` of an optional column: `none` both when the column is absent
(the `NaN` fill `pd.concat` inserts for a frame lacking it) and when the
stored cell is missing. -/
def colCell (c : Option (List (Option Int))) (i : Nat) : Option Int :=
  match c with
  | none => none
  | some l => (l[i]?).join

/-- A table's rows annotated with their cells of the three optional
columns, in row order. -/
def rawCells (T : RawTable) :
    List (RawRow × Option Int × Option Int × Option Int) :=
  T.rows.enum.map (fun p =>
    (p.2.2, colCell T.yearCol p.1, colCell T.monthCol p.1, colCell T.weekCol p.1))

/-- The row-wise concatenation `pd.concat([df1, df2], ignore_index=True)`
performs, dropping the carried indices of both inputs. -/
def concatRows (A B : RawTable) : List RawRow :=
  A.rows.map Prod.snd ++ B.rows.map Prod.snd

/- ### The unified Sales Record table (`load_data`) -/

/-- One normalized row of the unified table. -/
structure URow where
  date : Option Nat
  store_nbr : Option Int
  family : String
  sales : ℚ
  onpromotion : Int
  state : String
  city : String
  transactions : Option ℚ
  year : Option Int
  month : Option Int
  week : Option Int
deriving DecidableEq

/-- The per-row content of `load_data`'s normalization statements.
`hasY`/`hasM`/`hasW` say whether the concatenated frame already carries
the column; otherwise the field is derived from `date`.  The derived
`week` ends in `.astype(int)`, which raises when the date is missing
(`isocalendar` yields `<NA>` on `NaT`).  The `Unnamed: 0` drop is a
column-level no-op in this fixed-schema embedding. -/
def weekOfRow (hasW : Bool) (d : Option Nat) (wcell : Option Int) :
    Except String (Option Int) :=
  if hasW then Except.ok wcell
  else
    match d with
    | some t => Except.ok (some (isoWeekOfTs t : Int))
    | none => Except.error "cannot convert non-finite values (NA or inf) to integer"

/-- The remaining per-row content of `load_data`'s normalization
statements (see `weekOfRow` for the `week` column). -/
def loadRow (hasY hasM hasW : Bool)
    (p : RawRow × Option Int × Option Int × Option Int) : Except String URow :=
  match int64Cast p.1.store_nbr with
  | Except.error e => Except.error e
  | Except.ok store =>
    match weekOfRow hasW p.1.date p.2.2.2 with
    | Except.error e => Except.error e
    | Except.ok wk =>
      Except.ok {
        date := p.1.date
        store_nbr := store
        family := p.1.family
        sales := p.1.sales.getD 0
        onpromotion := ratTrunc (p.1.onpromotion.getD 0)
        state := p.1.state
        city := p.1.city
        transactions := p.1.transactions
        year := if hasY then p.2.1 else p.1.date.map (fun t => (yearOfTs t : Int))
        month := if hasM then p.2.2.1 else p.1.date.map (fun t => (monthOfTs t : Int))
        week := wk }

/-- `load_data` after the two archive reads: concatenate with a fresh
contiguous index, then normalize (`loadRow`) each row. -/
def loadUnified (A B : RawTable) : Except String (List (Nat × URow)) :=
  Except.map List.enum
    (mapE (loadRow (A.yearCol.isSome || B.yearCol.isSome)
                   (A.monthCol.isSome || B.monthCol.isSome)
                   (A.weekCol.isSome || B.weekCol.isSome))
          (rawCells A ++ rawCells B))

/- ### The Transaction Record table (`build_transactions_table`) -/

/-- One row of the Transaction Record table.  `transactions` is kept in
the cell domain; the final column assignment writes `some` of the coerced
value into it. -/
structure TxRow where
  date : Option Nat
  store_nbr : Option Int
  state : String
  city : String
  transactions : Option ℚ
  year : Option Int
deriving DecidableEq

/-- The projection `df_[["date", "store_nbr", "state", "city",
"transactions", "year"]]`; in this embedding the unified table always
carries all six columns, so the existence filter over `cols` keeps all. -/
def txCols (r : URow) : TxRow :=
  { date := r.date, store_nbr := r.store_nbr, state := r.state,
    city := r.city, transactions := r.transactions, year := r.year }

/-- The deduplication key `subset=["date", "store_nbr"]`. -/
def txKey (r : TxRow) : Option Nat × Option Int := (r.date, r.store_nbr)

/-- The same key read off a unified row. -/
def ukey (r : URow) : Option Nat × Option Int := (r.date, r.store_nbr)

/-- `drop_duplicates(subset=["date", "store_nbr"])`: keep the first
occurrence of every key, in row order (`NaN` keys compare equal, as in
pandas). -/
def dedupFirst : List TxRow → List TxRow
  | [] => []
  | r :: rs => r :: dedupFirst (rs.filter (fun x => !(decide (txKey x = txKey r))))
termination_by l => l.length
decreasing_by simp; exact Nat.lt_succ_of_le (List.length_filter_le _ _)

/-- The column assignment `base["transactions"] =
pd.to_numeric(base["transactions"], errors="coerce").fillna(0.0)`. -/
def coerceTx (r : TxRow) : TxRow :=
  { r with transactions := some (r.transactions.getD 0) }

/-- `build_transactions_table`: project, deduplicate on
`(date, store_nbr)`, then coerce the `transactions` column. -/
def build_transactions_table (tbl : List URow) : List TxRow :=
  (dedupFirst (tbl.map txCols)).map coerceTx

/-- A transaction row's contribution to a `transactions` sum
(pandas `sum` skips `NaN`). -/
def txAmount (r : TxRow) : ℚ := r.transactions.getD 0

/-- A unified row's contribution to a naive `transactions` sum. -/
def uAmount (r : URow) : ℚ := r.transactions.getD 0

/-- Sum of `transactions` over a Transaction Record table. -/
def txSum (l : List TxRow) : ℚ := (l.map txAmount).sum

/-- Naive sum of `transactions` over a unified table. -/
def uSum (l : List URow) : ℚ := (l.map uAmount).sum

/- ### Module-level date-range filter (lines 123-127) -/

/-- The sidebar filter guard: `start_date <= date <= end_date` with
`end_date = to_datetime(end_day) + Timedelta(days=1) - Timedelta(seconds=1)`.
`startTs` and `endDayTs` are the midnight timestamps of the chosen first
and last days; a `NaT` date satisfies neither comparison. -/
def inDateRange (startTs endDayTs : Nat) (d : Option Nat) : Bool :=
  match d with
  | some t => decide (startTs ≤ t) && decide (t ≤ endDayTs + 86400 - 1)
  | none => false

/-- `df_f = df[(df["date"] >= start_date) & (df["date"] <= end_date)].copy()`. -/
def df_f (startTs endDayTs : Nat) (df : List URow) : List URow :=
  df.filter (fun r => inDateRange startTs endDayTs r.date)

/-- `df_tx_f`, the same guard over the Transaction Record table. -/
def df_tx_f (startTs endDayTs : Nat) (dfTx : List TxRow) : List TxRow :=
  dfTx.filter (fun r => inDateRange startTs endDayTs r.date)

/- ### `read_csv_from_zip` -/

/-- One entry of a zip archive, its parsed payload attached. -/
structure ZipEntry where
  filename : String
  file_size : Nat
  payload : RawTable
deriving DecidableEq

/-- A zip archive that exists on disk. -/
structure ZipArchive where
  entries : List ZipEntry
deriving DecidableEq

/-- The three fatal load errors (`st.error` followed by `st.stop()`). -/
inductive LoadError where
  | missingFile
  | noTabularEntry
  | emptyPayload
deriving DecidableEq

/-- `i.filename.lower().endswith(".csv")`, spelled over the character
list so that it evaluates on literals. -/
def isCsvName (s : String) : Bool :=
  List.isSuffixOf ".csv".data (s.data.map Char.toLower)

/-- `max(infos, key=lambda i: i.file_size)`: the first entry of maximal
size (Python's `max` keeps the earlier of ties). -/
def pickLargest (e : ZipEntry) (es : List ZipEntry) : ZipEntry :=
  es.foldl (fun best i => if best.file_size < i.file_size then i else best) e

/-- `read_csv_from_zip`: a missing path, an archive with no `.csv`
entry, and an empty selected entry each stop processing; otherwise the
largest `.csv` entry's payload is parsed and returned. -/
def read_csv_from_zip (a : Option ZipArchive) : Except LoadError RawTable :=
  match a with
  | none => Except.error LoadError.missingFile
  | some z =>
    match z.entries.filter (fun i => isCsvName i.filename) with
    | [] => Except.error LoadError.noTabularEntry
    | e :: es =>
      let best := pickLargest e es
      if best.file_size = 0 then Except.error LoadError.emptyPayload
      else Except.ok best.payload

/- ### Object heap for the lifecycle (copy vs in-place) facts -/

/-- A heap object: a unified frame or a transactions frame. -/
inductive HObj where
  | u (t : List URow)
  | tx (t : List TxRow)
deriving DecidableEq

/-- Read a unified frame out of the heap. -/
def getU (h : List HObj) (i : Nat) : List URow :=
  match h[i]? with
  | some (HObj.u t) => t
  | _ => []

/-- Read a transactions frame out of the heap. -/
def getTx (h : List HObj) (i : Nat) : List TxRow :=
  match h[i]? with
  | some (HObj.tx t) => t
  | _ => []

/-- `build_transactions_table` over the heap: `df_[cols]` and
`drop_duplicates` each return fresh frames (new objects); the final
column assignment mutates only the fresh frame.  Returns the heap and
the id of the produced table. -/
def buildTxHeap (h : List HObj) (i : Nat) : List HObj × Nat :=
  let dfv := getU h i
  let proj := dfv.map txCols
  let h1 := h ++ [HObj.tx proj]
  let base := dedupFirst proj
  let h2 := h1 ++ [HObj.tx base]
  let bid := h1.length
  (h2.set bid (HObj.tx (base.map coerceTx)), bid)

/-- The `df_f` filter over the heap: `.copy()` allocates a fresh frame. -/
def copyFilterU (h : List HObj) (i s e : Nat) : List HObj × Nat :=
  (h ++ [HObj.u (df_f s e (getU h i))], h.length)

/-- The `df_tx_f` filter over the heap: `.copy()` allocates a fresh frame. -/
def copyFilterTx (h : List HObj) (i s e : Nat) : List HObj × Nat :=
  (h ++ [HObj.tx (df_tx_f s e (getTx h i))], h.length)

/- ### Concrete fixtures -/

/-- A unified row with the fields the deduplicator reads filled in. -/
def uRow (d : Option Nat) (s : Option Int) (fam : String) (tx : Option ℚ) : URow :=
  { date := d, store_nbr := s, family := fam, sales := 0, onpromotion := 0,
    state := "Pichincha", city := "Quito", transactions := tx,
    year := some 1970, month := some 1, week := some 1 }

/-- Two product families on one `(date, store)` day, both rows carrying
`transactions = 0`. -/
def cexFamTbl : List URow :=
  [uRow (some 0) (some 1) "DAIRY" (some 0), uRow (some 0) (some 1) "BREAD" (some 0)]

/-- Two product families on one `(date, store)` day, both rows carrying
`transactions = -1`. -/
def cexNegTbl : List URow :=
  [uRow (some 0) (some 1) "DAIRY" (some (-1)),
   uRow (some 0) (some 1) "BREAD" (some (-1))]

/-- One product family, duplicated row, positive `transactions`. -/
def cexDupTbl : List URow :=
  [uRow (some 0) (some 1) "DAIRY" (some 1), uRow (some 0) (some 1) "DAIRY" (some 1)]

/-- A single row with a negative parsed `transactions` value. -/
def cexNeg4 : List URow := [uRow (some 0) (some 1) "DAIRY" (some (-1))]

/-- A table with one missing `transactions` cell and one positive one. -/
def w4Tbl : List URow :=
  [uRow (some 0) (some 1) "GROCERY" none, uRow (some 86400) (some 2) "BREAD" (some 3)]

/-- Three rows, two sharing the key `(1970-01-01, store 1)`. -/
def wC1Tbl : List URow :=
  [uRow (some 0) (some 1) "DAIRY" (some 50),
   uRow (some 0) (some 1) "BREAD" (some 50),
   uRow (some 86400) (some 1) "DAIRY" (some 20)]

/-- First sample archive payload: carried indices 5 and 3, a `week`
column present, and a second row whose date and numeric cells failed to
parse. -/
def wA : RawTable :=
  { rows :=
      [(5, { date := some 0, store_nbr := some 1, family := "DAIRY",
             sales := some 4,
             onpromotion := some (Rat.mk' 3 2 (by decide) (by decide)),
             state := "Pichincha",
             city := "Quito", transactions := some 50 }),
       (3, { date := none, store_nbr := some 2, family := "BREAD",
             sales := none, onpromotion := none, state := "Pichincha",
             city := "Quito", transactions := some 7 })],
    yearCol := none, monthCol := none, weekCol := some [some 1, some 9] }

/-- Second sample archive payload: one row, no optional columns. -/
def wB : RawTable :=
  { rows :=
      [(0, { date := some 86400, store_nbr := some 2, family := "DAIRY",
             sales := some 5, onpromotion := some 0, state := "Guayas",
             city := "Guayaquil", transactions := none })],
    yearCol := none, monthCol := none, weekCol := none }

/-- The unified table the sample pair loads to. -/
def uW : List (Nat × URow) := ((loadUnified wA wB).toOption).getD []

/-- An archive pair whose CSVs lack the `week` column while one date
cell is unparseable. -/
def rawA3 : RawTable :=
  { rows :=
      [(0, { date := some 0, store_nbr := some 1, family := "DAIRY",
             sales := some 4, onpromotion := some 0, state := "Pichincha",
             city := "Quito", transactions := some 50 }),
       (1, { date := none, store_nbr := some 1, family := "BREAD",
             sales := some 2, onpromotion := some 0, state := "Pichincha",
             city := "Quito", transactions := some 50 })],
    yearCol := none, monthCol := none, weekCol := none }

/-- Companion archive for the failing load: one well-formed row. -/
def rawB3 : RawTable :=
  { rows :=
      [(0, { date := some 86400, store_nbr := some 2, family := "DAIRY",
             sales := some 5, onpromotion := some 0, state := "Guayas",
             city := "Guayaquil", transactions := some 3 })],
    yearCol := none, monthCol := none, weekCol := none }

/-- A sample archive: two `.csv` entries of different sizes and one
non-tabular entry that is larger than both. -/
def wZip : ZipArchive :=
  { entries :=
      [{ filename := "sample.csv", file_size := 3, payload := rawB3 },
       { filename := "README.txt", file_size := 99, payload := rawB3 },
       { filename := "Train.CSV", file_size := 10, payload := wA }] }

/- ### Helper lemmas -/

deriving instance DecidableEq for Except

theorem mapE_length {f : α → Except String β} :
    ∀ {l : List α} {l2 : List β}, mapE f l = Except.ok l2 → l2.length = l.length := by
  intro l
  induction l with
  | nil => intro l2 h; simp [mapE] at h; simp [← h]
  | cons a l ih =>
    intro l2 h
    simp only [mapE] at h
    cases hfa : f a with
    | error e => rw [hfa] at h; cases h
    | ok b =>
      rw [hfa] at h
      cases hrec : mapE f l with
      | error e => rw [hrec] at h; cases h
      | ok bs =>
        rw [hrec] at h
        cases h
        simp [ih hrec]

theorem mapE_ok_get {f : α → Except String β} :
    ∀ {l : List α} {l2 : List β}, mapE f l = Except.ok l2 →
      ∀ (i : Nat) (a : α), l[i]? = some a → ∃ b, f a = Except.ok b ∧ l2[i]? = some b := by
  intro l
  induction l with
  | nil => intro l2 _ i a ha; simp at ha
  | cons x l ih =>
    intro l2 h i a ha
    simp only [mapE] at h
    cases hfx : f x with
    | error e => rw [hfx] at h; cases h
    | ok b =>
      rw [hfx] at h
      cases hrec : mapE f l with
      | error e => rw [hrec] at h; cases h
      | ok bs =>
        rw [hrec] at h
        cases h
        cases i with
        | zero =>
          simp only [List.getElem?_cons_zero, Option.some.injEq] at ha
          subst ha
          exact ⟨b, hfx, List.getElem?_cons_zero⟩
        | succ j =>
          simp only [List.getElem?_cons_succ] at ha ⊢
          exact ih hrec j a ha

theorem dedupFirst_sublist : ∀ l : List TxRow, List.Sublist (dedupFirst l) l := by
  intro l
  induction l using dedupFirst.induct with
  | case1 => simp [dedupFirst]
  | case2 r rs ih =>
    rw [dedupFirst]
    exact (ih.trans (List.filter_sublist rs)).cons₂ r

theorem find?_cons_pos {α} {p : α → Bool} {x : α} (rs : List α) (h : p x = true) :
    (x :: rs).find? p = some x := by
  simp [List.find?, h]

theorem find?_cons_neg {α} {p : α → Bool} {x : α} (rs : List α) (h : p x = false) :
    (x :: rs).find? p = rs.find? p := by
  simp [List.find?, h]

theorem filter_ne_find? (k : Option Nat × Option Int) (r : TxRow) (hk : k ≠ txKey r) :
    ∀ rs : List TxRow,
      (rs.filter (fun x => !(decide (txKey x = txKey r)))).find?
          (fun x => decide (txKey x = k))
        = rs.find? (fun x => decide (txKey x = k)) := by
  intro rs
  induction rs with
  | nil => simp
  | cons x rs ih =>
    by_cases hxr : txKey x = txKey r
    · have hxk : (decide (txKey x = k)) = false := by
        apply decide_eq_false
        rw [hxr]; exact fun h => hk h.symm
      rw [List.filter_cons_of_neg (by simp [hxr]), ih,
        find?_cons_neg rs hxk]
    · rw [List.filter_cons_of_pos (by simp [hxr])]
      by_cases hxk : txKey x = k
      · rw [find?_cons_pos _ (by simp [hxk]), find?_cons_pos _ (by simp [hxk])]
      · rw [find?_cons_neg _ (by simp [hxk]), find?_cons_neg _ (by simp [hxk]), ih]

theorem dedupFirst_find? (k : Option Nat × Option Int) :
    ∀ l : List TxRow,
      (dedupFirst l).find? (fun x => decide (txKey x = k))
        = l.find? (fun x => decide (txKey x = k)) := by
  intro l
  induction l using dedupFirst.induct with
  | case1 => simp [dedupFirst]
  | case2 r rs ih =>
    rw [dedupFirst]
    by_cases hrk : txKey r = k
    · rw [find?_cons_pos _ (by simp [hrk]), find?_cons_pos _ (by simp [hrk])]
    · have hk : k ≠ txKey r := fun h => hrk h.symm
      rw [find?_cons_neg _ (by simp [hrk]), find?_cons_neg _ (by simp [hrk]), ih,
        filter_ne_find? k r hk rs]

theorem dedupFirst_countP (k : Option Nat × Option Int) :
    ∀ l : List TxRow,
      (dedupFirst l).countP (fun x => decide (txKey x = k))
        = if l.countP (fun x => decide (txKey x = k)) = 0 then 0 else 1 := by
  intro l
  induction l using dedupFirst.induct with
  | case1 => simp [dedupFirst]
  | case2 r rs ih =>
    rw [dedupFirst]
    rw [List.countP_cons, List.countP_cons]
    by_cases hrk : txKey r = k
    · subst hrk
      have hz : (rs.filter (fun x => !(decide (txKey x = txKey r)))).countP
          (fun x => decide (txKey x = txKey r)) = 0 := by
        apply List.countP_eq_zero.mpr
        intro x hx
        have := (List.mem_filter.mp hx).2
        simp only [Bool.not_eq_true', decide_eq_false_iff_not] at this
        simp [this]
      have hdz : (dedupFirst (rs.filter (fun x => !(decide (txKey x = txKey r))))).countP
          (fun x => decide (txKey x = txKey r)) = 0 :=
        List.countP_eq_zero.mpr (fun x hx =>
          List.countP_eq_zero.mp hz x ((dedupFirst_sublist _).mem hx))
      simp [hdz]
    · have hcnt : (rs.filter (fun x => !(decide (txKey x = txKey r)))).countP
          (fun x => decide (txKey x = k)) = rs.countP (fun x => decide (txKey x = k)) := by
        rw [List.countP_filter]
        apply List.countP_congr
        intro x _
        by_cases hxk : txKey x = k
        · have hnr : ¬ txKey x = txKey r := by rw [hxk]; exact fun h => hrk h.symm
          rw [hxk] at hnr
          simp [hxk, hnr]
        · simp [hxk]
      rw [ih, hcnt]
      by_cases hc : rs.countP (fun x => decide (txKey x = k)) = 0 <;> simp [hc, hrk]

theorem dedupFirst_eq_self :
    ∀ l : List TxRow,
      (∀ k, l.countP (fun x => decide (txKey x = k)) ≤ 1) → dedupFirst l = l := by
  intro l
  induction l using dedupFirst.induct with
  | case1 => intro _; simp [dedupFirst]
  | case2 r rs ih =>
    intro h
    have hz : rs.countP (fun x => decide (txKey x = txKey r)) = 0 := by
      have h1 := h (txKey r)
      rw [List.countP_cons, if_pos (by simp)] at h1
      omega
    have hfe : rs.filter (fun x => !(decide (txKey x = txKey r))) = rs := by
      apply List.filter_eq_self.mpr
      intro x hx
      have := List.countP_eq_zero.mp hz x hx
      simpa using this
    rw [dedupFirst, hfe]
    rw [hfe] at ih
    rw [ih]
    intro k
    have := h k
    rw [List.countP_cons] at this
    omega

theorem sum_map_filter_split {α} (f : α → ℚ) (p : α → Bool) :
    ∀ l : List α,
      (l.map f).sum
        = ((l.filter p).map f).sum + ((l.filter (fun x => !(p x))).map f).sum := by
  intro l
  induction l with
  | nil => simp
  | cons x l ih =>
    by_cases hp : p x
    · rw [List.filter_cons_of_pos hp, List.filter_cons_of_neg (by simp [hp])]
      simp only [List.map_cons, List.sum_cons, ih]
      ring
    · rw [List.filter_cons_of_neg hp, List.filter_cons_of_pos (by simp [hp])]
      simp only [List.map_cons, List.sum_cons, ih]
      ring

theorem dedupFirst_sum_le (l : List TxRow) (hnn : ∀ a ∈ l, 0 ≤ txAmount a) :
    ((dedupFirst l).map txAmount).sum ≤ (l.map txAmount).sum := by
  apply List.Sublist.sum_le_sum ((dedupFirst_sublist l).map txAmount)
  intro q hq
  obtain ⟨a, ha, rfl⟩ := List.mem_map.mp hq
  exact hnn a ha

theorem dedupFirst_sum_lt :
    ∀ l : List TxRow,
      (∀ a ∈ l, ∀ b ∈ l, txKey a = txKey b → a.transactions = b.transactions) →
      (∀ a ∈ l, 0 ≤ txAmount a) →
      ∀ k : Option Nat × Option Int,
        1 < l.countP (fun x => decide (txKey x = k)) →
        (∃ a ∈ l, txKey a = k ∧ 0 < txAmount a) →
        ((dedupFirst l).map txAmount).sum < (l.map txAmount).sum := by
  intro l
  induction l using dedupFirst.induct with
  | case1 =>
    intro _ _ k hdup _
    simp at hdup
  | case2 r rs ih =>
    intro hconst hnn k hdup hpos
    rw [dedupFirst]
    simp only [List.map_cons, List.sum_cons]
    rw [sum_map_filter_split txAmount (fun x => decide (txKey x = txKey r)) rs]
    set same := rs.filter (fun x => decide (txKey x = txKey r)) with hsame
    set diff := rs.filter (fun x => !(decide (txKey x = txKey r))) with hdiff
    have hdiff_le : ((dedupFirst diff).map txAmount).sum ≤ (diff.map txAmount).sum := by
      apply dedupFirst_sum_le
      intro a ha
      exact hnn a (List.mem_cons_of_mem r ((List.filter_sublist rs).mem ha))
    by_cases hrk : txKey r = k
    · subst hrk
      obtain ⟨a, hal, hak, hapos⟩ := hpos
      have hsame_ne : same ≠ [] := by
        have h1 : 1 ≤ rs.countP (fun x => decide (txKey x = txKey r)) := by
          rw [List.countP_cons, if_pos (by simp)] at hdup
          omega
        intro hemp
        rw [hsame] at hemp
        have h2 := List.countP_eq_length_filter (fun x => decide (txKey x = txKey r)) rs
        rw [hemp] at h2
        simp only [List.length_nil] at h2
        omega
      have hsame_pos : 0 < (same.map txAmount).sum := by
        apply List.sum_pos
        · intro q hq
          obtain ⟨x, hx, rfl⟩ := List.mem_map.mp hq
          have hxmem : x ∈ rs := (List.filter_sublist rs).mem hx
          have hxk : txKey x = txKey r := by
            have := (List.mem_filter.mp hx).2
            simpa using this
          have : x.transactions = a.transactions :=
            hconst x (List.mem_cons_of_mem r hxmem) a hal (hxk.trans hak.symm)
          unfold txAmount at hapos ⊢
          rw [this]
          exact hapos
        · simpa using hsame_ne
      linarith
    · obtain ⟨a, hal, hak, hapos⟩ := hpos
      have har : a ≠ r := fun h => hrk (h ▸ hak ▸ rfl)
      have hars : a ∈ rs := by
        rcases List.mem_cons.mp hal with h | h
        · exact absurd h har
        · exact h
      have hadiff : a ∈ diff := by
        rw [hdiff]
        apply List.mem_filter.mpr
        refine ⟨hars, ?_⟩
        simp only [Bool.not_eq_true', decide_eq_false_iff_not]
        rw [hak]; exact fun h => hrk h.symm
      have hcntdiff : 1 < diff.countP (fun x => decide (txKey x = k)) := by
        rw [hdiff, List.countP_filter]
        have : rs.countP (fun x => decide (txKey x = k) && !(decide (txKey x = txKey r)))
            = rs.countP (fun x => decide (txKey x = k)) := by
          apply List.countP_congr
          intro x _
          by_cases hxk : txKey x = k
          · have hnr : ¬ txKey x = txKey r := by rw [hxk]; exact fun h => hrk h.symm
            rw [hxk] at hnr
            simp [hxk, hnr]
          · simp [hxk]
        rw [this]
        rw [List.countP_cons, if_neg (by simp [hrk])] at hdup
        omega
      have hstrict : ((dedupFirst diff).map txAmount).sum < (diff.map txAmount).sum := by
        apply ih
        · intro x hx y hy hxy
          exact hconst x (List.mem_cons_of_mem r ((List.filter_sublist rs).mem hx))
            y (List.mem_cons_of_mem r ((List.filter_sublist rs).mem hy)) hxy
        · intro x hx
          exact hnn x (List.mem_cons_of_mem r ((List.filter_sublist rs).mem hx))
        · exact hcntdiff
        · exact ⟨a, hadiff, hak, hapos⟩
      have hsame_nn : 0 ≤ (same.map txAmount).sum := by
        apply List.sum_nonneg
        intro q hq
        obtain ⟨x, hx, rfl⟩ := List.mem_map.mp hq
        exact hnn x (List.mem_cons_of_mem r ((List.filter_sublist rs).mem hx))
      linarith

theorem dedupFirst_filter_comm :
    ∀ (l : List TxRow) (q : TxRow → Bool),
      (∀ a b, txKey a = txKey b → q a = q b) →
      dedupFirst (l.filter q) = (dedupFirst l).filter q := by
  intro l
  induction l using dedupFirst.induct with
  | case1 => intro q _; simp [dedupFirst]
  | case2 r rs ih =>
    intro q hq
    by_cases hqr : q r
    · rw [List.filter_cons_of_pos hqr, dedupFirst, dedupFirst,
        List.filter_cons_of_pos hqr, List.filter_comm, ih q hq]
    · have heq : (rs.filter q).filter (fun x => !(decide (txKey x = txKey r)))
          = rs.filter q := by
        apply List.filter_eq_self.mpr
        intro x hx
        have hxq := (List.mem_filter.mp hx).2
        by_cases hxr : txKey x = txKey r
        · have hq2 : q x = q r := hq x r hxr
          rw [hxq] at hq2
          exact absurd hq2.symm hqr
        · simp [hxr]
      have heq2 : rs.filter q
          = (rs.filter (fun x => !(decide (txKey x = txKey r)))).filter q := by
        rw [List.filter_comm, heq]
      rw [List.filter_cons_of_neg hqr, dedupFirst, List.filter_cons_of_neg hqr,
        heq2, ih q hq]

theorem pickLargest_mem :
    ∀ (es : List ZipEntry) (e : ZipEntry), pickLargest e es ∈ e :: es := by
  intro es
  induction es with
  | nil => intro e; simp [pickLargest]
  | cons i es ih =>
    intro e
    have h := ih (if e.file_size < i.file_size then i else e)
    simp only [pickLargest, List.foldl_cons] at h ⊢
    rcases List.mem_cons.mp h with h1 | h1
    · rw [h1]
      by_cases hc : e.file_size < i.file_size <;> simp [hc]
    · exact List.mem_cons_of_mem _ (List.mem_cons_of_mem _ h1)

theorem pickLargest_ge :
    ∀ (es : List ZipEntry) (e x : ZipEntry), x ∈ e :: es →
      x.file_size ≤ (pickLargest e es).file_size := by
  intro es
  induction es with
  | nil =>
    intro e x hx
    rcases List.mem_cons.mp hx with h | h
    · rw [h]; simp [pickLargest]
    · simp at h
  | cons i es ih =>
    intro e x hx
    simp only [pickLargest, List.foldl_cons] at *
    have hstep_e : e.file_size ≤ (if e.file_size < i.file_size then i else e).file_size := by
      by_cases hc : e.file_size < i.file_size
      · simp only [if_pos hc]; omega
      · simp [hc]
    have hstep_i : i.file_size ≤ (if e.file_size < i.file_size then i else e).file_size := by
      by_cases hc : e.file_size < i.file_size
      · simp [hc]
      · simp only [if_neg hc]; omega
    rcases List.mem_cons.mp hx with h | h
    · rw [h]
      exact le_trans hstep_e
        (ih _ _ (List.mem_cons_self _ _))
    · rcases List.mem_cons.mp h with h2 | h2
      · rw [h2]
        exact le_trans hstep_i (ih _ _ (List.mem_cons_self _ _))
      · exact ih _ x (List.mem_cons_of_mem _ h2)

theorem heap_frame_buildTx (h : List HObj) (i j : Nat) (hj : j < h.length) :
    ((buildTxHeap h i).1)[j]? = h[j]? := by
  simp only [buildTxHeap]
  rw [List.getElem?_set_ne (by simp; omega)]
  rw [List.getElem?_append_left (by simp; omega), List.getElem?_append_left hj]

theorem heap_frame_filterU (h : List HObj) (i s e j : Nat) (hj : j < h.length) :
    ((copyFilterU h i s e).1)[j]? = h[j]? := by
  simp only [copyFilterU]
  rw [List.getElem?_append_left hj]

theorem heap_frame_filterTx (h : List HObj) (i s e j : Nat) (hj : j < h.length) :
    ((copyFilterTx h i s e).1)[j]? = h[j]? := by
  simp only [copyFilterTx]
  rw [List.getElem?_append_left hj]

theorem mapE_ok_rev {f : α → Except String β} {l : List α} {l2 : List β}
    (h : mapE f l = Except.ok l2) (i : Nat) (b : β) (hb : l2[i]? = some b) :
    ∃ a, l[i]? = some a ∧ f a = Except.ok b := by
  have hlen := mapE_length h
  cases hx : l[i]? with
  | none =>
    have hge : l.length ≤ i := List.getElem?_eq_none_iff.mp hx
    have : l2[i]? = none := List.getElem?_eq_none_iff.mpr (by omega)
    rw [this] at hb
    cases hb
  | some a =>
    obtain ⟨b2, hfb, hgb⟩ := mapE_ok_get h i a hx
    rw [hgb] at hb
    injection hb with hbb
    refine ⟨a, rfl, ?_⟩
    rw [← hbb]
    exact hfb

theorem loadUnified_parts {A B : RawTable} {u : List (Nat × URow)}
    (h : loadUnified A B = Except.ok u) :
    ∃ l, mapE (loadRow (A.yearCol.isSome || B.yearCol.isSome)
                 (A.monthCol.isSome || B.monthCol.isSome)
                 (A.weekCol.isSome || B.weekCol.isSome))
              (rawCells A ++ rawCells B) = Except.ok l
      ∧ u = l.enum := by
  unfold loadUnified at h
  cases hm : mapE (loadRow (A.yearCol.isSome || B.yearCol.isSome)
      (A.monthCol.isSome || B.monthCol.isSome)
      (A.weekCol.isSome || B.weekCol.isSome)) (rawCells A ++ rawCells B) with
  | error e => rw [hm] at h; cases h
  | ok l =>
    rw [hm] at h
    simp only [Except.map] at h
    cases h
    exact ⟨l, rfl, rfl⟩

theorem enum_getElem {α} (l : List α) (i : Nat) :
    l.enum[i]? = l[i]?.map (fun a => (i, a)) := by
  simp [List.getElem?_enum]

theorem loadRow_ok_fields {hY hM hW : Bool}
    {p : RawRow × Option Int × Option Int × Option Int} {r : URow}
    (h : loadRow hY hM hW p = Except.ok r) :
    r.date = p.1.date ∧ r.sales = p.1.sales.getD 0
      ∧ r.onpromotion = ratTrunc (p.1.onpromotion.getD 0)
      ∧ r.transactions = p.1.transactions := by
  unfold loadRow at h
  cases hst : int64Cast p.1.store_nbr with
  | error e => rw [hst] at h; cases h
  | ok store =>
    rw [hst] at h
    cases hw : weekOfRow hW p.1.date p.2.2.2 with
    | error e => rw [hw] at h; cases h
    | ok wk =>
      rw [hw] at h
      cases h
      exact ⟨rfl, rfl, rfl, rfl⟩

theorem loadUnified_row_origin {A B : RawTable} {u : List (Nat × URow)}
    (h : loadUnified A B = Except.ok u) (i : Nat) (q : Nat × URow)
    (hq : u[i]? = some q) :
    ∃ p, (rawCells A ++ rawCells B)[i]? = some p
      ∧ loadRow (A.yearCol.isSome || B.yearCol.isSome)
          (A.monthCol.isSome || B.monthCol.isSome)
          (A.weekCol.isSome || B.weekCol.isSome) p = Except.ok q.2
      ∧ q.1 = i := by
  obtain ⟨l, hm, rfl⟩ := loadUnified_parts h
  rw [enum_getElem] at hq
  cases hx : l[i]? with
  | none => rw [hx] at hq; cases hq
  | some b =>
    rw [hx] at hq
    simp only [Option.map_some'] at hq
    obtain ⟨a, ha, hfa⟩ := mapE_ok_rev hm i b hx
    injection hq with hq2
    refine ⟨a, ha, ?_, ?_⟩
    · rw [← hq2]; exact hfa
    · rw [← hq2]

theorem build_mem_origin {tbl : List URow} {r2 : TxRow}
    (h : r2 ∈ build_transactions_table tbl) :
    ∃ r ∈ tbl, r2 = coerceTx (txCols r) := by
  unfold build_transactions_table at h
  obtain ⟨x, hx, rfl⟩ := List.mem_map.mp h
  have hx2 : x ∈ tbl.map txCols := (dedupFirst_sublist _).mem hx
  obtain ⟨r, hr, rfl⟩ := List.mem_map.mp hx2
  exact ⟨r, hr, rfl⟩

theorem inDateRange_iff (s e : Nat) (d : Option Nat) :
    inDateRange s e d = true ↔ ∃ t, d = some t ∧ s ≤ t ∧ t < e + 86400 := by
  cases d with
  | none => simp [inDateRange]
  | some t =>
    simp only [inDateRange, Bool.and_eq_true, decide_eq_true_eq,
      Option.some.injEq]
    constructor
    · rintro ⟨h1, h2⟩
      exact ⟨t, rfl, h1, by omega⟩
    · rintro ⟨t2, ht, h1, h2⟩
      subst ht
      exact ⟨h1, by omega⟩

/- ### Claim theorems -/

/-- C1: for every `(date, store_nbr)` pair appearing in some row of the
unified table, the Transaction Record table contains exactly one row with
that pair, and that row is (the projection and coercion of) the first
occurrence in input row order. -/
theorem C1_dedup_exactly_once_first (tbl : List URow) (k : Option Nat × Option Int)
    (hk : k ∈ tbl.map ukey) :
    (build_transactions_table tbl).countP (fun r => decide (txKey r = k)) = 1
    ∧ (build_transactions_table tbl).find? (fun r => decide (txKey r = k))
        = (tbl.find? (fun r => decide (ukey r = k))).map (fun r => coerceTx (txCols r)) := by
  have hcnt_tbl : 0 < tbl.countP (fun r => decide (ukey r = k)) := by
    apply List.countP_pos_iff.mpr
    obtain ⟨r, hr, hrk⟩ := List.mem_map.mp hk
    exact ⟨r, hr, by simp [hrk]⟩
  have hmap1 : ((tbl.map txCols).countP (fun r => decide (txKey r = k)))
      = tbl.countP (fun r => decide (ukey r = k)) := by
    rw [List.countP_map]
    rfl
  constructor
  · unfold build_transactions_table
    rw [List.countP_map]
    have hcomp : ((fun r => decide (txKey r = k)) ∘ coerceTx)
        = (fun r : TxRow => decide (txKey r = k)) := rfl
    rw [hcomp, dedupFirst_countP, hmap1]
    rw [if_neg (by omega)]
  · unfold build_transactions_table
    rw [List.find?_map]
    have hcomp : ((fun r => decide (txKey r = k)) ∘ coerceTx)
        = (fun r : TxRow => decide (txKey r = k)) := rfl
    rw [hcomp, dedupFirst_find?, List.find?_map]
    have hcomp2 : ((fun r => decide (txKey r = k)) ∘ txCols)
        = (fun r : URow => decide (ukey r = k)) := rfl
    rw [hcomp2, Option.map_map]
    rfl

/-- C1 witness: the key `(1970-01-01, store 1)` occurs in the sample
table and the Transaction Record table keeps exactly its first row. -/
theorem C1_witness :
    ((some 0, some 1) : Option Nat × Option Int) ∈ wC1Tbl.map ukey
    ∧ ((build_transactions_table wC1Tbl).countP
          (fun r => decide (txKey r = ((some 0, some 1) : Option Nat × Option Int))) = 1
        ∧ (build_transactions_table wC1Tbl).find?
              (fun r => decide (txKey r = ((some 0, some 1) : Option Nat × Option Int)))
            = (wC1Tbl.find? (fun r =>
                decide (ukey r = ((some 0, some 1) : Option Nat × Option Int)))).map
                (fun r => coerceTx (txCols r))) :=
  ⟨by decide, C1_dedup_exactly_once_first wC1Tbl (some 0, some 1) (by decide)⟩

/-- C4 counterexample: a parsed source value of `-1` passes through the
coercion untouched, so the output table carries a negative
`transactions` value, contradicting the unconditional non-negativity
claim. -/
theorem C4_counterexample :
    (build_transactions_table cexNeg4).map TxRow.transactions = [some (-1)]
    ∧ ¬ (∀ r2 ∈ build_transactions_table cexNeg4, 0 ≤ txAmount r2) := by
  have hbuild : build_transactions_table cexNeg4
      = [coerceTx (txCols (uRow (some 0) (some 1) "DAIRY" (some (-1))))] := by
    simp [build_transactions_table, cexNeg4, dedupFirst]
  constructor
  · rw [hbuild]
    simp [coerceTx, txCols, uRow]
  · rw [hbuild]
    intro hall
    have := hall (coerceTx (txCols (uRow (some 0) (some 1) "DAIRY" (some (-1)))))
      (List.mem_singleton.mpr rfl)
    simp [txAmount, coerceTx, txCols, uRow] at this
    norm_num at this

/-- C4 (amended): every `transactions` cell of the Transaction Record
table is `some` of the coerced source value of its originating row —
missing or unparseable source values become exactly `0.0` — and the
output column is non-negative whenever all parsed source values are
non-negative; the code does not clamp negative parsed values. -/
theorem C4_transactions_coercion (tbl : List URow) :
    (∀ r2 ∈ build_transactions_table tbl,
        ∃ r ∈ tbl, r2 = coerceTx (txCols r)
          ∧ r2.transactions = some (r.transactions.getD 0)
          ∧ (r.transactions = none → r2.transactions = some 0))
    ∧ ((∀ r ∈ tbl, 0 ≤ uAmount r) →
        ∀ r2 ∈ build_transactions_table tbl, 0 ≤ txAmount r2) := by
  constructor
  · intro r2 h2
    obtain ⟨r, hr, rfl⟩ := build_mem_origin h2
    refine ⟨r, hr, rfl, rfl, ?_⟩
    intro hnone
    simp [coerceTx, txCols, hnone]
  · intro hnn r2 h2
    obtain ⟨r, hr, rfl⟩ := build_mem_origin h2
    have := hnn r hr
    simpa [txAmount, coerceTx, txCols, uAmount] using this

/-- C4 witness: on a table whose parsed `transactions` values are
non-negative (one cell missing), every output cell is non-negative. -/
theorem C4_witness :
    (∀ r ∈ w4Tbl, 0 ≤ uAmount r)
    ∧ (∀ r2 ∈ build_transactions_table w4Tbl, 0 ≤ txAmount r2) :=
  ⟨by decide, (C4_transactions_coercion w4Tbl).2 (by decide)⟩

/-- C8: a row belongs to the date-range-filtered view of either base
table exactly when it belongs to the base table and its date parsed to a
timestamp between the start of the first selected day and the final
second (any instant, at the embedding's one-second resolution) of the
last selected day. -/
theorem C8_date_filter_mem (s e : Nat) (df : List URow) (dfTx : List TxRow)
    (r : URow) (r2 : TxRow) :
    (r ∈ df_f s e df ↔ r ∈ df ∧ ∃ t, r.date = some t ∧ s ≤ t ∧ t < e + 86400)
    ∧ (r2 ∈ df_tx_f s e dfTx
        ↔ r2 ∈ dfTx ∧ ∃ t, r2.date = some t ∧ s ≤ t ∧ t < e + 86400) := by
  constructor
  · rw [df_f, List.mem_filter, inDateRange_iff]
  · rw [df_tx_f, List.mem_filter, inDateRange_iff]

/-- C10: loading preserves each row's (possibly missing) parsed date in
position, and neither date-range filter ever selects a row whose date is
the missing marker, whatever the chosen bounds. -/
theorem C10_missing_dates (A B : RawTable) (u : List (Nat × URow))
    (h : loadUnified A B = Except.ok u) :
    (∀ (i : Nat) (p : RawRow × Option Int × Option Int × Option Int) (q : Nat × URow),
        (rawCells A ++ rawCells B)[i]? = some p → u[i]? = some q → q.2.date = p.1.date)
    ∧ (∀ (l : List URow) (r : URow), r.date = none → ∀ s e, r ∉ df_f s e l)
    ∧ (∀ (l : List TxRow) (r2 : TxRow), r2.date = none → ∀ s e, r2 ∉ df_tx_f s e l) := by
  refine ⟨?_, ?_, ?_⟩
  · intro i p q hp hq
    obtain ⟨p2, hp2, hl, _⟩ := loadUnified_row_origin h i q hq
    rw [hp] at hp2
    injection hp2 with he
    subst he
    exact (loadRow_ok_fields hl).1
  · intro l r hd s e hmem
    have h2 := (List.mem_filter.mp hmem).2
    rw [hd] at h2
    simp [inDateRange] at h2
  · intro l r2 hd s e hmem
    have h2 := (List.mem_filter.mp hmem).2
    rw [hd] at h2
    simp [inDateRange] at h2

/-- C10 witness: the sample archives load successfully (their row with an
unparseable date included, since a `week` column is present) and the
instantiated conclusions hold. -/
theorem C10_witness :
    loadUnified wA wB = Except.ok uW
    ∧ ((∀ (i : Nat) (p : RawRow × Option Int × Option Int × Option Int) (q : Nat × URow),
          (rawCells wA ++ rawCells wB)[i]? = some p → uW[i]? = some q → q.2.date = p.1.date)
        ∧ (∀ (l : List URow) (r : URow), r.date = none → ∀ s e, r ∉ df_f s e l)
        ∧ (∀ (l : List TxRow) (r2 : TxRow), r2.date = none → ∀ s e, r2 ∉ df_tx_f s e l)) :=
  ⟨by rfl, C10_missing_dates wA wB uW (by rfl)⟩

theorem rawCells_length (T : RawTable) : (rawCells T).length = T.rows.length := by
  simp [rawCells]

/-- C3 (code bug): when neither source carries a `week` column and some
date cell is unparseable, `load_data` does not substitute the missing
sentinel and continue — deriving `week` ends in `astype(int)` on a
column holding a missing value, which raises, so the whole load fails. -/
theorem C3_week_astype_raises :
    loadUnified rawA3 rawB3
      = Except.error "cannot convert non-finite values (NA or inf) to integer" := by
  rfl

/-- C5: the unified table ignores the carried row indices of both inputs,
places all rows of the first archive before the second in order, carries
the fresh contiguous index `0..n-1`, and its row `i` is the row-wise
normalization of concatenated input row `i`. -/
theorem C5_concat_fresh_index (A B : RawTable) (u : List (Nat × URow))
    (h : loadUnified A B = Except.ok u) :
    u.map Prod.fst = List.range (A.rows.length + B.rows.length)
    ∧ u.length = A.rows.length + B.rows.length
    ∧ (∀ i : Nat, i < A.rows.length →
        (concatRows A B)[i]? = (A.rows[i]?).map Prod.snd)
    ∧ (∀ j : Nat, (concatRows A B)[A.rows.length + j]? = (B.rows[j]?).map Prod.snd)
    ∧ (∀ (i : Nat) (q : Nat × URow), u[i]? = some q →
        q.1 = i ∧ ∃ p, (rawCells A ++ rawCells B)[i]? = some p
          ∧ loadRow (A.yearCol.isSome || B.yearCol.isSome)
              (A.monthCol.isSome || B.monthCol.isSome)
              (A.weekCol.isSome || B.weekCol.isSome) p = Except.ok q.2) := by
  obtain ⟨l, hm, hu⟩ := loadUnified_parts h
  have hlen : l.length = A.rows.length + B.rows.length := by
    rw [mapE_length hm]
    simp [rawCells_length]
  refine ⟨?_, ?_, ?_, ?_, ?_⟩
  · rw [hu, List.enum_map_fst, hlen]
  · rw [hu]
    simp [hlen]
  · intro i hi
    rw [concatRows, List.getElem?_append_left (by simp [hi]), List.getElem?_map]
  · intro j
    rw [concatRows, List.getElem?_append_right (by simp)]
    simp
  · intro i q hq
    obtain ⟨p, hp, hl2, hfst⟩ := loadUnified_row_origin h i q hq
    exact ⟨hfst, p, hp, hl2⟩

/-- C5 witness: the sample pair loads, and the instantiated conclusions
hold (the carried indices 5, 3, 0 are discarded). -/
theorem C5_witness :
    loadUnified wA wB = Except.ok uW
    ∧ (uW.map Prod.fst = List.range (wA.rows.length + wB.rows.length)
        ∧ uW.length = wA.rows.length + wB.rows.length
        ∧ (∀ i : Nat, i < wA.rows.length →
            (concatRows wA wB)[i]? = (wA.rows[i]?).map Prod.snd)
        ∧ (∀ j : Nat, (concatRows wA wB)[wA.rows.length + j]?
            = (wB.rows[j]?).map Prod.snd)
        ∧ (∀ (i : Nat) (q : Nat × URow), uW[i]? = some q →
            q.1 = i ∧ ∃ p, (rawCells wA ++ rawCells wB)[i]? = some p
              ∧ loadRow (wA.yearCol.isSome || wB.yearCol.isSome)
                  (wA.monthCol.isSome || wB.monthCol.isSome)
                  (wA.weekCol.isSome || wB.weekCol.isSome) p = Except.ok q.2)) :=
  ⟨by rfl, C5_concat_fresh_index wA wB uW (by rfl)⟩

/-- C6: in every loaded row, `sales` is the parsed value with missing
defaulted to `0.0`, and `onpromotion` is the parsed value truncated to an
integer with missing defaulted to `0`. -/
theorem C6_sales_promo_coercion (A B : RawTable) (u : List (Nat × URow))
    (h : loadUnified A B = Except.ok u) (i : Nat)
    (p : RawRow × Option Int × Option Int × Option Int) (q : Nat × URow)
    (hp : (rawCells A ++ rawCells B)[i]? = some p) (hq : u[i]? = some q) :
    q.2.sales = p.1.sales.getD 0
    ∧ q.2.onpromotion = ratTrunc (p.1.onpromotion.getD 0)
    ∧ (p.1.sales = none → q.2.sales = 0)
    ∧ (p.1.onpromotion = none → q.2.onpromotion = 0) := by
  obtain ⟨p2, hp2, hl, _⟩ := loadUnified_row_origin h i q hq
  rw [hp] at hp2
  injection hp2 with he
  subst he
  obtain ⟨_, hs, ho, _⟩ := loadRow_ok_fields hl
  refine ⟨hs, ho, ?_, ?_⟩
  · intro hn
    rw [hs, hn]
    rfl
  · intro hn
    rw [ho, hn]
    simp [ratTrunc]

/-- C6 witness: the sample row whose `sales` and `onpromotion` cells
failed to parse loads with `sales = 0.0` and `onpromotion = 0`. -/
theorem C6_witness :
    loadUnified wA wB = Except.ok uW
    ∧ (rawCells wA ++ rawCells wB)[1]?
        = some ({ date := none, store_nbr := some 2, family := "BREAD",
                  sales := none, onpromotion := none, state := "Pichincha",
                  city := "Quito", transactions := some 7 },
                none, none, some 9)
    ∧ uW[1]?
        = some (1, { date := none, store_nbr := some 2, family := "BREAD",
                     sales := 0, onpromotion := 0, state := "Pichincha",
                     city := "Quito", transactions := some 7,
                     year := none, month := none, week := some 9 })
    ∧ ((0 : ℚ) = (none : Option ℚ).getD 0
        ∧ (0 : Int) = ratTrunc ((none : Option ℚ).getD 0)) :=
  ⟨by rfl, by rfl, by rfl, by
    have h := C6_sales_promo_coercion wA wB uW (by rfl) 1
      ({ date := none, store_nbr := some 2, family := "BREAD",
         sales := none, onpromotion := none, state := "Pichincha",
         city := "Quito", transactions := some 7 }, none, none, some 9)
      (1, { date := none, store_nbr := some 2, family := "BREAD",
            sales := 0, onpromotion := 0, state := "Pichincha",
            city := "Quito", transactions := some 7,
            year := none, month := none, week := some 9 })
      (by rfl) (by rfl)
    exact ⟨h.1, h.2.1⟩⟩

/-- C7: `read_csv_from_zip` fails with the missing-file stop exactly when
the archive path does not exist, with the no-tabular-entry stop exactly
when no entry name ends (case-insensitively) in `.csv`, and with the
empty-payload stop exactly when the selected entry has zero size;
otherwise it returns the parsed payload of a `.csv` entry of maximal
size, and an error always means no table at all is produced. -/
theorem C7_read_zip_spec (a : Option ZipArchive) :
    (read_csv_from_zip a = Except.error LoadError.missingFile ↔ a = none)
    ∧ (read_csv_from_zip a = Except.error LoadError.noTabularEntry
        ↔ ∃ z, a = some z ∧ z.entries.filter (fun i => isCsvName i.filename) = [])
    ∧ (∀ (z : ZipArchive) (e : ZipEntry) (es : List ZipEntry), a = some z →
        z.entries.filter (fun i => isCsvName i.filename) = e :: es →
        ((read_csv_from_zip a = Except.error LoadError.emptyPayload
            ↔ (pickLargest e es).file_size = 0)
          ∧ (0 < (pickLargest e es).file_size →
              read_csv_from_zip a = Except.ok (pickLargest e es).payload
              ∧ pickLargest e es ∈ z.entries
              ∧ isCsvName (pickLargest e es).filename = true
              ∧ ∀ i ∈ z.entries, isCsvName i.filename = true →
                  i.file_size ≤ (pickLargest e es).file_size))) := by
  cases a with
  | none =>
    refine ⟨by simp [read_csv_from_zip], by simp [read_csv_from_zip], ?_⟩
    intro z e es hz
    cases hz
  | some z =>
    cases hf : z.entries.filter (fun i => isCsvName i.filename) with
    | nil =>
      have hread : read_csv_from_zip (some z) = Except.error LoadError.noTabularEntry := by
        simp [read_csv_from_zip, hf]
      refine ⟨by simp [hread], ⟨fun _ => ⟨z, rfl, hf⟩, fun _ => hread⟩, ?_⟩
      intro z2 e es hz2 hf2
      injection hz2 with hz3
      subst hz3
      rw [hf] at hf2
      cases hf2
    | cons e0 es0 =>
      have hbm : pickLargest e0 es0 ∈ z.entries.filter (fun i => isCsvName i.filename) := by
        rw [hf]
        exact pickLargest_mem es0 e0
      have hbcsv := List.mem_filter.mp hbm
      by_cases hsz : (pickLargest e0 es0).file_size = 0
      · have hread : read_csv_from_zip (some z) = Except.error LoadError.emptyPayload := by
          simp [read_csv_from_zip, hf, hsz]
        have hnotab : ¬ (∃ z2, (some z = some z2
            ∧ z2.entries.filter (fun i => isCsvName i.filename) = [])) := by
          rintro ⟨z2, hz2, hfe⟩
          injection hz2 with hz3
          subst hz3
          rw [hf] at hfe
          cases hfe
        refine ⟨by simp [hread],
          ⟨fun hr => absurd (hread.symm.trans hr) (by simp),
           fun he2 => absurd he2 hnotab⟩, ?_⟩
        intro z2 e es hz2 hf2
        injection hz2 with hz3
        subst hz3
        rw [hf] at hf2
        injection hf2 with he hes
        subst he
        subst hes
        refine ⟨by simp [hread, hsz], ?_⟩
        intro hpos
        omega
      · have hread : read_csv_from_zip (some z)
            = Except.ok (pickLargest e0 es0).payload := by
          simp [read_csv_from_zip, hf, hsz]
        have hnotab : ¬ (∃ z2, (some z = some z2
            ∧ z2.entries.filter (fun i => isCsvName i.filename) = [])) := by
          rintro ⟨z2, hz2, hfe⟩
          injection hz2 with hz3
          subst hz3
          rw [hf] at hfe
          cases hfe
        refine ⟨by simp [hread],
          ⟨fun hr => absurd (hread.symm.trans hr) (by simp),
           fun he2 => absurd he2 hnotab⟩, ?_⟩
        intro z2 e es hz2 hf2
        injection hz2 with hz3
        subst hz3
        rw [hf] at hf2
        injection hf2 with he hes
        subst he
        subst hes
        refine ⟨by simp [hread, hsz], ?_⟩
        intro _
        refine ⟨hread, hbcsv.1, hbcsv.2, ?_⟩
        intro i hi hcsv
        have hmem : i ∈ z.entries.filter (fun x => isCsvName x.filename) :=
          List.mem_filter.mpr ⟨hi, hcsv⟩
        rw [hf] at hmem
        exact pickLargest_ge es0 e0 i hmem

/-- C7 witness: on the sample archive the largest `.csv` entry
(`Train.CSV`, 10 bytes, beating `sample.csv` and ignoring the larger
`README.txt`) is parsed; the maximality conclusions are instantiated. -/
theorem C7_witness :
    (some wZip) = some wZip
    ∧ wZip.entries.filter (fun i => isCsvName i.filename)
        = [{ filename := "sample.csv", file_size := 3, payload := rawB3 },
           { filename := "Train.CSV", file_size := 10, payload := wA }]
    ∧ (0 < (pickLargest
          { filename := "sample.csv", file_size := 3, payload := rawB3 }
          [{ filename := "Train.CSV", file_size := 10, payload := wA }]).file_size)
    ∧ read_csv_from_zip (some wZip)
        = Except.ok (pickLargest
            { filename := "sample.csv", file_size := 3, payload := rawB3 }
            [{ filename := "Train.CSV", file_size := 10, payload := wA }]).payload
    ∧ (∀ i ∈ wZip.entries, isCsvName i.filename = true →
        i.file_size ≤ (pickLargest
          { filename := "sample.csv", file_size := 3, payload := rawB3 }
          [{ filename := "Train.CSV", file_size := 10, payload := wA }]).file_size) := by
  have h := (C7_read_zip_spec (some wZip)).2.2 wZip
    { filename := "sample.csv", file_size := 3, payload := rawB3 }
    [{ filename := "Train.CSV", file_size := 10, payload := wA }]
    rfl (by rfl)
  have h2 := h.2 (by decide)
  exact ⟨rfl, by rfl, by decide, h2.1, h2.2.2.2⟩

/-- C9: no pipeline operation after load mutates a pre-existing frame:
deduplication and both filters only allocate fresh objects (the one
in-place column write hits the freshly allocated frame), so after the
module-level sequence the unified base still holds its loaded contents
and the transactions base holds exactly `build_transactions_table` of it. -/
theorem C9_immutable_bases :
    (∀ (h : List HObj) (i j : Nat), j < h.length → ((buildTxHeap h i).1)[j]? = h[j]?)
    ∧ (∀ (h : List HObj) (i s e j : Nat), j < h.length →
        ((copyFilterU h i s e).1)[j]? = h[j]?)
    ∧ (∀ (h : List HObj) (i s e j : Nat), j < h.length →
        ((copyFilterTx h i s e).1)[j]? = h[j]?)
    ∧ (∀ (df : List URow) (s e : Nat),
        ((copyFilterTx (copyFilterU (buildTxHeap [HObj.u df] 0).1 0 s e).1
            (buildTxHeap [HObj.u df] 0).2 s e).1)[0]? = some (HObj.u df)
        ∧ ((copyFilterTx (copyFilterU (buildTxHeap [HObj.u df] 0).1 0 s e).1
              (buildTxHeap [HObj.u df] 0).2 s e).1)[(buildTxHeap [HObj.u df] 0).2]?
            = some (HObj.tx (build_transactions_table df))) := by
  refine ⟨heap_frame_buildTx, heap_frame_filterU, heap_frame_filterTx, ?_⟩
  intro df s e
  constructor
  · rfl
  · rfl

/-- C9 witness: the frame facts instantiated on a one-object heap. -/
theorem C9_witness :
    ((0 : Nat) < ([HObj.u w4Tbl] : List HObj).length)
    ∧ ((buildTxHeap [HObj.u w4Tbl] 0).1)[0]? = ([HObj.u w4Tbl] : List HObj)[0]?
    ∧ ((copyFilterU [HObj.u w4Tbl] 0 0 0).1)[0]? = ([HObj.u w4Tbl] : List HObj)[0]?
    ∧ ((copyFilterTx [HObj.u w4Tbl] 0 0 0).1)[0]? = ([HObj.u w4Tbl] : List HObj)[0]? :=
  ⟨by decide,
   C9_immutable_bases.1 [HObj.u w4Tbl] 0 0 (by decide),
   C9_immutable_bases.2.1 [HObj.u w4Tbl] 0 0 0 0 (by decide),
   C9_immutable_bases.2.2.1 [HObj.u w4Tbl] 0 0 0 0 (by decide)⟩

/-- C2 (amended): when the `transactions` values are constant within each
`(date, store_nbr)` group, as the spec assumes, and non-negative, the sum
over the Transaction Record table restricted to any store/date range is
at most the naive sum over the unified table so restricted; the two sums
are equal whenever each in-range pair occupies exactly one row, and the
inequality is strict whenever some in-range pair occupies more than one
row and carries a positive `transactions` value. -/
theorem C2_tx_sum_vs_naive (tbl : List URow) (p : Option Nat → Option Int → Bool)
    (hconst : ∀ r ∈ tbl, ∀ r2 ∈ tbl, ukey r = ukey r2 → r.transactions = r2.transactions)
    (hnn : ∀ r ∈ tbl, 0 ≤ uAmount r) :
    txSum ((build_transactions_table tbl).filter (fun r => p r.date r.store_nbr))
      ≤ uSum (tbl.filter (fun r => p r.date r.store_nbr))
    ∧ ((∀ k : Option Nat × Option Int,
          (tbl.filter (fun r => p r.date r.store_nbr)).countP
            (fun r => decide (ukey r = k)) ≤ 1) →
        txSum ((build_transactions_table tbl).filter (fun r => p r.date r.store_nbr))
          = uSum (tbl.filter (fun r => p r.date r.store_nbr)))
    ∧ ((∃ k : Option Nat × Option Int,
          1 < (tbl.filter (fun r => p r.date r.store_nbr)).countP
            (fun r => decide (ukey r = k))
          ∧ ∃ r ∈ tbl.filter (fun r => p r.date r.store_nbr),
              ukey r = k ∧ 0 < uAmount r) →
        txSum ((build_transactions_table tbl).filter (fun r => p r.date r.store_nbr))
          < uSum (tbl.filter (fun r => p r.date r.store_nbr))) := by
  have hkeydet : ∀ a b : TxRow, txKey a = txKey b →
      (fun r : TxRow => p r.date r.store_nbr) a
        = (fun r : TxRow => p r.date r.store_nbr) b := by
    intro a b hab
    have h1 : a.date = b.date := congrArg Prod.fst hab
    have h2 : a.store_nbr = b.store_nbr := congrArg Prod.snd hab
    simp only [h1, h2]
  have key : (build_transactions_table tbl).filter (fun r => p r.date r.store_nbr)
      = (dedupFirst ((tbl.filter (fun r => p r.date r.store_nbr)).map txCols)).map
          coerceTx := by
    unfold build_transactions_table
    rw [List.filter_map]
    have e1 : ((fun r : TxRow => p r.date r.store_nbr) ∘ coerceTx)
        = (fun r : TxRow => p r.date r.store_nbr) := rfl
    rw [e1, ← dedupFirst_filter_comm (tbl.map txCols)
        (fun r : TxRow => p r.date r.store_nbr) hkeydet, List.filter_map]
    rfl
  have sumtx : ∀ X : List TxRow, txSum (X.map coerceTx) = (X.map txAmount).sum := by
    intro X
    unfold txSum
    rw [List.map_map]
    rfl
  have sumu : uSum (tbl.filter (fun r => p r.date r.store_nbr))
      = (((tbl.filter (fun r => p r.date r.store_nbr)).map txCols).map txAmount).sum := by
    unfold uSum
    rw [List.map_map]
    rfl
  have hnnM : ∀ a ∈ (tbl.filter (fun r => p r.date r.store_nbr)).map txCols,
      0 ≤ txAmount a := by
    intro a ha
    obtain ⟨r, hr, rfl⟩ := List.mem_map.mp ha
    exact hnn r (List.mem_filter.mp hr).1
  have hconstM : ∀ a ∈ (tbl.filter (fun r => p r.date r.store_nbr)).map txCols,
      ∀ b ∈ (tbl.filter (fun r => p r.date r.store_nbr)).map txCols,
        txKey a = txKey b → a.transactions = b.transactions := by
    intro a ha b hb hab
    obtain ⟨r1, hr1, rfl⟩ := List.mem_map.mp ha
    obtain ⟨r2, hr2, rfl⟩ := List.mem_map.mp hb
    exact hconst r1 (List.mem_filter.mp hr1).1 r2 (List.mem_filter.mp hr2).1 hab
  refine ⟨?_, ?_, ?_⟩
  · rw [key, sumtx, sumu]
    exact dedupFirst_sum_le _ hnnM
  · intro huniq
    rw [key, sumtx, sumu]
    rw [dedupFirst_eq_self _ ?_]
    intro k
    rw [List.countP_map]
    exact huniq k
  · rintro ⟨k, hcnt, r, hrF, hrk, hrpos⟩
    rw [key, sumtx, sumu]
    apply dedupFirst_sum_lt _ hconstM hnnM k
    · rw [List.countP_map]
      exact hcnt
    · exact ⟨txCols r, List.mem_map_of_mem txCols hrF, hrk, hrpos⟩

/-- C2 counterexample: over the full range (a store/date range), (i) with
negative `transactions` the naive unified sum is strictly below the
Transaction Record sum, refuting the unconditional inequality; (ii) two
distinct product families with `transactions = 0` give equal sums where
strictness is claimed; (iii) one family occupying two identical rows
gives strictly unequal sums where equality is claimed. -/
theorem C2_counterexample :
    (cexNegTbl.map URow.family = ["DAIRY", "BREAD"]
      ∧ (∀ r ∈ cexNegTbl, ∀ r2 ∈ cexNegTbl,
          ukey r = ukey r2 → r.transactions = r2.transactions)
      ∧ uSum cexNegTbl < txSum (build_transactions_table cexNegTbl))
    ∧ (cexFamTbl.map URow.family = ["DAIRY", "BREAD"]
      ∧ (∀ r ∈ cexFamTbl, ∀ r2 ∈ cexFamTbl,
          ukey r = ukey r2 → r.transactions = r2.transactions)
      ∧ txSum (build_transactions_table cexFamTbl) = uSum cexFamTbl)
    ∧ (cexDupTbl.map URow.family = ["DAIRY", "DAIRY"]
      ∧ txSum (build_transactions_table cexDupTbl) < uSum cexDupTbl) := by
  refine ⟨⟨by decide, by decide, ?_⟩, ⟨by decide, by decide, ?_⟩, ⟨by decide, ?_⟩⟩
  · simp [build_transactions_table, cexNegTbl, uRow, txCols, dedupFirst, txKey,
      coerceTx, txSum, txAmount, uSum, uAmount]
  · simp [build_transactions_table, cexFamTbl, uRow, txCols, dedupFirst, txKey,
      coerceTx, txSum, txAmount, uSum, uAmount]
  · simp [build_transactions_table, cexDupTbl, uRow, txCols, dedupFirst, txKey,
      coerceTx, txSum, txAmount, uSum, uAmount]

/-- C2 witness: the duplicated-row table satisfies the amended
hypotheses, and the strict branch fires on its duplicated positive key. -/
theorem C2_witness :
    (∀ r ∈ cexDupTbl, ∀ r2 ∈ cexDupTbl,
        ukey r = ukey r2 → r.transactions = r2.transactions)
    ∧ (∀ r ∈ cexDupTbl, 0 ≤ uAmount r)
    ∧ (∃ k : Option Nat × Option Int,
        1 < (cexDupTbl.filter (fun r => (fun _ _ => true) r.date r.store_nbr)).countP
          (fun r => decide (ukey r = k))
        ∧ ∃ r ∈ cexDupTbl.filter (fun r => (fun _ _ => true) r.date r.store_nbr),
            ukey r = k ∧ 0 < uAmount r)
    ∧ txSum ((build_transactions_table cexDupTbl).filter
          (fun r => (fun _ _ => true) r.date r.store_nbr))
        < uSum (cexDupTbl.filter (fun r => (fun _ _ => true) r.date r.store_nbr)) :=
  ⟨by decide, by decide,
   ⟨(some 0, some 1), by decide,
    uRow (some 0) (some 1) "DAIRY" (some 1), by decide, by decide, by decide⟩,
   (C2_tx_sum_vs_naive cexDupTbl (fun _ _ => true) (by decide) (by decide)).2.2
     ⟨(some 0, some 1), by decide,
      uRow (some 0) (some 1) "DAIRY" (some 1), by decide, by decide, by decide⟩⟩
